import Mathlib

/-!
Shallow embedding of the CarApp price-fairness core
(`backend/routes/inspections.js`, `backend/models/Vehicle.js` catalog schema,
`backend/routes/guidesChat.js` normalizer variant), with theorems checking the
natural-language specification against it.

Numbers are modelled as rationals (`ℚ`); JavaScript `Math.round` is modelled
exactly (round half toward +∞), and `NaN`-producing inputs are modelled with
`Option`.
-/

namespace CarApp

/-! JavaScript helpers -/

/-- JavaScript `Math.round`: nearest integer, half rounds toward +∞. -/
def jsRound (x : ℚ) : ℤ := ⌊x + 1/2⌋

/-- `Math.round(x * 100) / 100` — round to two decimals (model's `recomputeRollups`). -/
def round2 (x : ℚ) : ℚ := (jsRound (x * 100) : ℚ) / 100

/-- JavaScript `a || b` on strings (the empty string is falsy). -/
def jsOr (a b : String) : String := if a = "" then b else a

/-- JavaScript `x || d` on numbers (`0` is falsy; a missing value is `none`). -/
def jsNumOr (x : Option ℚ) (d : ℚ) : ℚ :=
  match x with
  | none => d
  | some v => if v = 0 then d else v

/-- Does `pat` occur as a contiguous run inside `l`? -/
def hasInfix (l pat : List Char) : Bool :=
  pat.isPrefixOf l ||
    match l with
    | [] => false
    | _ :: t => hasInfix t pat

/-- JavaScript `String.prototype.includes`. -/
def strContains (s pat : String) : Bool := hasInfix s.data pat.data

/-- JavaScript `String.prototype.toLowerCase` (per character). -/
def jsToLower (s : String) : String := ⟨s.data.map Char.toLower⟩

/-- Characters kept by the slug regex class `[a-z0-9_]`. -/
def isKeyChar (c : Char) : Bool :=
  ('a' ≤ c && c ≤ 'z') || ('0' ≤ c && c ≤ '9') || c = '_'

/-- Character-level model of `s.replace(/[^a-z0-9_]+/g, "_")`: every maximal run
of non-`[a-z0-9_]` characters collapses to a single underscore. The `inRun` flag
records whether the previous character was part of such a run. -/
def slugCharsAux : List Char → Bool → List Char
  | [], _ => []
  | c :: rest, inRun =>
    if isKeyChar c then c :: slugCharsAux rest false
    else if inRun then slugCharsAux rest true
    else '_' :: slugCharsAux rest true

def slugChars (l : List Char) : List Char := slugCharsAux l false

/-- The slug fallback of the normalizers. -/
def slug (s : String) : String := ⟨slugChars s.data⟩

/-- `normalizeServiceKey` from `backend/routes/inspections.js` (identical copy in
the unnamed frontend api file): ordered substring rules, slug fallback. -/
def normalizeServiceKey (raw : String) : String :=
  let s := jsToLower raw
  if strContains s "oil" then "oil_change"
  else if strContains s "brake" then "brake_pads"
  else if strContains s "air filter" || strContains s "engine filter" then "air_filter"
  else if strContains s "cabin" || strContains s "pollen" then "cabin_filter"
  else if strContains s "coolant" || strContains s "radiator" then "coolant"
  else if strContains s "tire" || strContains s "tyre" then "tires"
  else if strContains s "spark" then "spark_plugs"
  else if strContains s "transmission" then "transmission_fluid"
  else if strContains s "battery" then "battery"
  else if strContains s "wiper" then "wiper_blades"
  else slug s

/-- `normalizeServiceKey` from `backend/routes/guidesChat.js`: same rules but with
an early-empty return and a `brake`+`rotor` rule tested before the plain `brake`
rule. -/
def normalizeServiceKeyGuides (raw : String) : String :=
  let s := jsToLower raw
  if s = "" then ""
  else if strContains s "oil" then "oil_change"
  else if strContains s "brake" && strContains s "rotor" then "rotors"
  else if strContains s "brake" then "brake_pads"
  else if strContains s "air filter" || strContains s "engine filter" then "air_filter"
  else if strContains s "cabin" || strContains s "pollen" then "cabin_filter"
  else if strContains s "coolant" || strContains s "radiator" then "coolant"
  else if strContains s "tire" || strContains s "tyre" then "tires"
  else if strContains s "spark" then "spark_plugs"
  else if strContains s "transmission" then "transmission_fluid"
  else if strContains s "battery" then "battery"
  else if strContains s "wiper" then "wiper_blades"
  else slug s

/-- The canonical service keys (closed taxonomy of the system). -/
def canonicalKeys : List String :=
  ["oil_change", "brake_pads", "rotors", "tires", "air_filter", "cabin_filter",
   "coolant", "spark_plugs", "transmission_fluid", "battery", "wiper_blades"]

/-! Heuristic rate table (`computeHeuristicRate`) -/

structure HeurRow where
  min : ℚ
  avg : ℚ
  max : ℚ
  hours : ℚ
deriving DecidableEq

def rowOilChange : HeurRow := ⟨40, 55, 80, 1/2⟩
def rowBrakePads : HeurRow := ⟨100, 225, 350, 3/2⟩
def rowRotors : HeurRow := ⟨300, 500, 700, 9/5⟩
def rowTires : HeurRow := ⟨600, 800, 1000, 7/10⟩
def rowAirFilter : HeurRow := ⟨25, 45, 60, 1/5⟩
def rowCabinFilter : HeurRow := ⟨20, 40, 60, 1/5⟩
def rowCoolant : HeurRow := ⟨120, 185, 250, 1⟩
def rowSparkPlugs : HeurRow := ⟨50, 80, 120, 6/5⟩
def rowTransmissionFluid : HeurRow := ⟨130, 185, 250, 3/2⟩
def rowBattery : HeurRow := ⟨120, 185, 250, 3/10⟩
def rowWiperBlades : HeurRow := ⟨20, 35, 50, 1/10⟩

/-- The literal `TABLE` object of `computeHeuristicRate`, as a keyed lookup. -/
def heurTable (k : String) : Option HeurRow :=
  if k = "oil_change" then some rowOilChange
  else if k = "brake_pads" then some rowBrakePads
  else if k = "rotors" then some rowRotors
  else if k = "tires" then some rowTires
  else if k = "air_filter" then some rowAirFilter
  else if k = "cabin_filter" then some rowCabinFilter
  else if k = "coolant" then some rowCoolant
  else if k = "spark_plugs" then some rowSparkPlugs
  else if k = "transmission_fluid" then some rowTransmissionFluid
  else if k = "battery" then some rowBattery
  else if k = "wiper_blades" then some rowWiperBlades
  else none

/-- Row selection of `computeHeuristicRate`: exact table hit, then the ordered
`includes` chain, then the `{min:120, avg:180, max:250, hours:1}` default. -/
def heurRow (k : String) : HeurRow :=
  match heurTable k with
  | some row => row
  | none =>
    if strContains k "rotor" then rowRotors
    else if strContains k "brake" then rowBrakePads
    else if strContains k "tire" || strContains k "tyre" then rowTires
    else if strContains k "cabin" then rowCabinFilter
    else if strContains k "air" && strContains k "filter" then rowAirFilter
    else if strContains k "spark" then rowSparkPlugs
    else if strContains k "transmission" then rowTransmissionFluid
    else if strContains k "coolant" || strContains k "radiator" then rowCoolant
    else if strContains k "battery" then rowBattery
    else if strContains k "wiper" then rowWiperBlades
    else ⟨120, 180, 250, 1⟩

/-- The record returned from the rate-resolution helpers. `quotesCount = none`
models the field being absent (heuristic results do not carry it). -/
structure RateResult where
  key : String
  label : String
  avgPrice : ℚ
  rangeMin : ℚ
  rangeMax : ℚ
  standardHours : Option ℚ
  currency : String
  source : String
  quotesCount : Option ℕ
deriving DecidableEq

/-- `computeHeuristicRate(key, label)` from `backend/routes/inspections.js`. -/
def computeHeuristicRate (key lbl : String) : RateResult :=
  let k := jsToLower key
  let row := heurRow k
  { key := k
    label := jsOr lbl k
    avgPrice := (jsRound row.avg : ℚ)
    rangeMin := (jsRound row.min : ℚ)
    rangeMax := (jsRound row.max : ℚ)
    standardHours := some row.hours
    currency := "USD"
    source := "heuristic"
    quotesCount := none }

/-! Statistics helpers (`median` / `quantile`) -/

/-- `[...nums].sort((x, y) => x - y)` — ascending numeric sort of a copy. -/
def sortQ (l : List ℚ) : List ℚ := List.insertionSort (· ≤ ·) l

/-- `median(nums)` from `backend/routes/inspections.js`. In-bounds accesses are
written with `getD 0`; the default is never consulted (the indices are valid). -/
def median (nums : List ℚ) : Option ℚ :=
  if nums.isEmpty then none
  else
    let a := sortQ nums
    let mid := a.length / 2
    if a.length % 2 = 1 then some (a.getD mid 0)
    else some ((a.getD (mid - 1) 0 + a.getD mid 0) / 2)

/-- JavaScript array indexing `a[i]` for a possibly negative index: `none`
models `undefined`. -/
def jsIndex (a : List ℚ) (i : ℤ) : Option ℚ :=
  if 0 ≤ i then a[i.toNat]? else none

/-- `quantile(nums, q)` from `backend/routes/inspections.js`. The guarded access
`a[base + 1] !== undefined` is the `match`; a failed read of `a[base]` (which in
JavaScript would poison the result with `NaN`) is modelled as `none`. -/
def quantile (nums : List ℚ) (q : ℚ) : Option ℚ :=
  if nums.isEmpty then none
  else
    let a := sortQ nums
    let pos : ℚ := ((a.length : ℚ) - 1) * q
    let base : ℤ := ⌊pos⌋
    let rest : ℚ := pos - base
    match jsIndex a base with
    | none => none
    | some xb =>
      match jsIndex a (base + 1) with
      | some nxt => some (xb + rest * (nxt - xb))
      | none => some (xb + 0)

/-! Catalog store (`ServicePriceCatalog` schema in `backend/models/Vehicle.js`) -/

inductive AiDecision
  | fair
  | overpriced
  | unknown
deriving DecidableEq

/-- A `userQuotes` entry. `price = none` models a stored value whose
`Number(q.price)` is `NaN`; `aiDecision = none` models a quote with no
AI-assessment snapshot. -/
structure UserQuote where
  price : Option ℚ
  city : Option String
  vehicleId : Option String
  userId : Option String
  notes : Option String
  atTime : ℕ
  aiDecision : Option AiDecision
deriving DecidableEq

structure BaseRange where
  min : Option ℚ
  max : Option ℚ
deriving DecidableEq

/-- A `ServicePriceCatalog` document (the fields the core reads and writes). -/
structure CatalogDoc where
  key : String
  label : Option String
  currency : Option String
  standardHours : Option ℚ
  baseRange : Option BaseRange
  userQuotes : List UserQuote
  quotesCount : ℕ
  avgUserPrice : Option ℚ
  fairCount : ℕ
  overpricedCount : ℕ
  unknownCount : ℕ
  updatedAt : ℕ
deriving DecidableEq

/-- `(doc.userQuotes || []).map(q => Number(q.price)).filter(n => Number.isFinite(n) && n > 0)`:
the numeric, strictly positive quote prices. -/
def positivePrices (quotes : List UserQuote) : List ℚ :=
  (quotes.filterMap (·.price)).filter (fun n => 0 < n)

/-- `getCatalogRateForKey(key, label)` from `backend/routes/inspections.js`.
The `lookup` argument models the store: `none` means the catalog model is
absent or `findOne` threw (the `catch` branch); `some none` means no document
matched; `some (some doc)` is a hit. In-bounds statistic values are unwrapped
with `getD 0`; the defaults are never consulted when the quote gate passes. -/
def getCatalogRateForKey (lookup : Option (Option CatalogDoc)) (key lbl : String) :
    RateResult :=
  let k := normalizeServiceKey (jsOr (jsOr key lbl) "")
  match lookup with
  | some (some doc) =>
    let currency := jsOr (doc.currency.getD "") "PKR"
    let hours := doc.standardHours
    let prices := positivePrices doc.userQuotes
    if 5 ≤ prices.length then
      let med := (median prices).getD 0
      let p25 := (quantile prices (1/4)).getD 0
      let p75 := (quantile prices (3/4)).getD 0
      let bandMin := max 0 (jsRound p25)
      let bandMax := jsRound p75
      { key := k
        label := jsOr (doc.label.getD "") (jsOr lbl k)
        avgPrice := (jsRound med : ℚ)
        rangeMin := (bandMin : ℚ)
        rangeMax := (bandMax : ℚ)
        standardHours := hours
        currency := currency
        source := "catalog:user_quotes"
        quotesCount := some prices.length }
    else
      match doc.baseRange with
      | some br =>
        match br.min, br.max with
        | some bmin, some bmax =>
          { key := k
            label := jsOr (doc.label.getD "") (jsOr lbl k)
            avgPrice := (jsRound ((bmin + bmax) / 2) : ℚ)
            rangeMin := bmin
            rangeMax := bmax
            standardHours := hours
            currency := currency
            source := "catalog:base_range"
            quotesCount := some prices.length }
        | _, _ => computeHeuristicRate k lbl
      | none => computeHeuristicRate k lbl
  | _ => computeHeuristicRate k lbl

/-- Step of the `fair/overpriced/unknown` counting loop in `recomputeRollups`. -/
def countStep (c : ℕ × ℕ × ℕ) (q : UserQuote) : ℕ × ℕ × ℕ :=
  match q.aiDecision with
  | some .fair => (c.1 + 1, c.2.1, c.2.2)
  | some .overpriced => (c.1, c.2.1 + 1, c.2.2)
  | _ => (c.1, c.2.1, c.2.2 + 1)

/-- `recomputeRollups(doc)` from `backend/models/Vehicle.js`: rollups recomputed
from `userQuotes`. The sum over `ℚ` is always finite, so the
`Number.isFinite(sum / quotes.length)` test always passes. -/
def recomputeRollups (doc : CatalogDoc) : CatalogDoc :=
  let quotes := doc.userQuotes
  let avg : Option ℚ :=
    if 0 < quotes.length then
      let sum := quotes.foldl (fun acc q => acc + q.price.getD 0) 0
      some (round2 (sum / quotes.length))
    else none
  let counts := quotes.foldl countStep (0, 0, 0)
  { doc with
    quotesCount := quotes.length
    avgUserPrice := avg
    fairCount := counts.1
    overpricedCount := counts.2.1
    unknownCount := counts.2.2 }

/-- The `meta` argument of `upsertCatalogQuote`. -/
structure QuoteMeta where
  label : Option String
  city : Option String
  vehicleId : Option String
  userId : Option String
  notes : Option String
deriving DecidableEq

/-- JavaScript `x || null` on an optional string (the empty string is falsy). -/
def jsOrNull (x : Option String) : Option String :=
  match x with
  | some s => if s = "" then none else some s
  | none => none

/-- The subdocument pushed by `$push: { userQuotes: { price: p, ...safeMeta } }`.
The schema default fills `aiDecision` with `"unknown"`. -/
def newUserQuote (p : ℚ) (meta : QuoteMeta) (now : ℕ) : UserQuote :=
  { price := some p
    city := jsOrNull meta.city
    vehicleId := jsOrNull meta.vehicleId
    userId := jsOrNull meta.userId
    notes := jsOrNull meta.notes
    atTime := now
    aiDecision := some .unknown }

/-- `upsertCatalogQuote(key, price, meta)` from `backend/routes/inspections.js`,
as a transition on the state of the one catalog entry addressed by the
normalized key (`entry = none`: no document yet). `price = none` models a
non-numeric submission (`Number(price)` is `NaN`). The trailing
`recomputeRollups` is the model's `pre("save")` hook firing on `doc.save()`. -/
def upsertCatalogQuote (entry : Option CatalogDoc) (key : String) (price : Option ℚ)
    (meta : QuoteMeta) (now : ℕ) : Option CatalogDoc :=
  let k := normalizeServiceKey key
  match price with
  | none => entry
  | some p =>
    if k = "" ∨ p ≤ 0 then entry
    else
      let base : CatalogDoc :=
        match entry with
        | some doc => doc
        | none =>
          { key := k
            label := some (jsOr (meta.label.getD "") k)
            currency := some "PKR"
            standardHours := none
            baseRange := none
            userQuotes := []
            quotesCount := 0
            avgUserPrice := none
            fairCount := 0
            overpricedCount := 0
            unknownCount := 0
            updatedAt := now }
      let pushed : CatalogDoc :=
        { base with
          userQuotes := base.userQuotes ++ [newUserQuote p meta now]
          quotesCount := base.quotesCount + 1
          updatedAt := now }
      let prices := positivePrices pushed.userQuotes
      if 0 < prices.length then
        some (recomputeRollups
          { pushed with avgUserPrice := some ((jsRound (prices.sum / prices.length) : ℤ) : ℚ) })
      else some pushed

/-! Heuristic-only fallback verdict (`fallbackVerdict` inside
`POST /ai/quote-analyze`) -/

/-- A `marketRates` row as consumed by `fallbackVerdict`. `avgPrice = none`
models `typeof r.avgPrice !== "number"`; an absent `key`/`label` is `""`. -/
structure MarketRate where
  key : String
  label : String
  avgPrice : Option ℚ
  standardHours : Option ℚ
deriving DecidableEq

/-- A request line item. An absent `qty`/`price` is `none` (JavaScript
`undefined`, falsy like `0`). -/
structure LineItem where
  key : String
  label : String
  qty : Option ℚ
  price : Option ℚ
deriving DecidableEq

/-- The verdict container assembled by `fallbackVerdict`. -/
structure FallbackResult where
  overpriced_notes : List String
  questionable_notes : List String
  fair_notes : List String
  negotiation_tips : List String
  defer_or_skip_suggestions : List String
  safety_critical : List String
  web_rates : List String
  notes : List String
deriving DecidableEq

/-- `Number.prototype.toFixed(0)`: nearest integer, ties to the larger
integer, rendered as a string. -/
def fmt0 (x : ℚ) : String := toString (jsRound x)

/-- The index `idx` built by `fallbackVerdict`
(`idx[normalizeServiceKey(r.key || r.label || "")] = r`); the last write for a
key wins, so lookup searches the reversed list. -/
def rateIndexLookup (rates : List MarketRate) (k : String) : Option MarketRate :=
  rates.reverse.find? (fun r => normalizeServiceKey (jsOr (jsOr r.key r.label) "") == k)

/-- The normalized key of a line item (`normalizeServiceKey(it.key || it.label || "")`). -/
def itemKey (it : LineItem) : String :=
  normalizeServiceKey (jsOr (jsOr it.key it.label) "")

/-- `Number(it.qty || 1) * Number(it.price || 0)`. -/
def itemTotal (it : LineItem) : ℚ :=
  jsNumOr it.qty 1 * jsNumOr it.price 0

/-- The market average used for an item: the indexed row, if its `avgPrice`
is a number (`if (r && typeof r.avgPrice === "number")`). -/
def rateAvgFor (rates : List MarketRate) (it : LineItem) : Option ℚ :=
  (rateIndexLookup rates (itemKey it)).bind (·.avgPrice)

def overNote (it : LineItem) (total high : ℚ) : String :=
  "Likely overpriced: " ++ jsOr it.label (itemKey it) ++ " (" ++ fmt0 total
    ++ " > ~" ++ fmt0 high ++ ")"

def belowNote (it : LineItem) (low high : ℚ) : String :=
  "Below typical: " ++ jsOr it.label (itemKey it) ++ " (~" ++ fmt0 low
    ++ "–" ++ fmt0 high ++ ")"

def withinNote (it : LineItem) : String :=
  "Within typical range: " ++ jsOr it.label (itemKey it)

/-- The unknown-line note; `isFinite(total)` always holds over `ℚ`, so the
`"no price"` alternative is unreachable in the model. -/
def unknownNote (it : LineItem) (total : ℚ) : String :=
  "Unknown line: " ++ jsOr it.label (itemKey it) ++ " ($" ++ fmt0 total ++ ")"

/-- The body of `fallbackVerdict`'s `for` loop: pushes one note onto one of the
(overpriced, questionable, fair) accumulators. -/
def fallbackStep (rates : List MarketRate)
    (acc : List String × List String × List String) (it : LineItem) :
    List String × List String × List String :=
  let total := itemTotal it
  match rateAvgFor rates it with
  | some avg =>
    let high := avg * 1.2
    let low := avg * 0.8
    if high < total then (acc.1 ++ [overNote it total high], acc.2.1, acc.2.2)
    else if total < low then (acc.1, acc.2.1, acc.2.2 ++ [belowNote it low high])
    else (acc.1, acc.2.1, acc.2.2 ++ [withinNote it])
  | none => (acc.1, acc.2.1 ++ [unknownNote it total], acc.2.2)

/-- `fallbackVerdict()` from `POST /ai/quote-analyze` (the non-throwing `try`
body; in this pure model no step can throw, so the `catch` branch is dead). -/
def fallbackVerdict (rates : List MarketRate) (items : List LineItem) :
    FallbackResult :=
  let acc := items.foldl (fallbackStep rates) ([], [], [])
  { overpriced_notes := acc.1
    questionable_notes := acc.2.1
    fair_notes := acc.2.2
    negotiation_tips :=
      ["Ask for parts/labor split and itemized fees.",
       "Request tread depth/pad thickness before replacing wear items."]
    defer_or_skip_suggestions := []
    safety_critical := []
    web_rates := []
    notes := ["AI unavailable; used heuristic fallback"] }

/-! The `POST /ai/quote-analyze` credential gate -/

/-- Response shape for the quote-analyze endpoint (status plus the fields the
guard and the verdict paths set). -/
structure AnalyzeResponse where
  status : ℕ
  error : Option String
  gemini : Option FallbackResult
  fallback : Option Bool
deriving DecidableEq

/-- The entry of `router.post("/ai/quote-analyze")`: the missing-credential
guard runs before anything else; the rest of the handler (AI call, parsing,
fallback) is abstracted as `rest`, which the guard never reaches when the key
is absent. -/
def aiQuoteAnalyzeHandler (hasKey : Bool)
    (rest : List MarketRate → List LineItem → AnalyzeResponse)
    (marketRates : List MarketRate) (items : List LineItem) : AnalyzeResponse :=
  if !hasKey then
    { status := 500
      error := some "Gemini API key missing on server"
      gemini := none
      fallback := none }
  else rest marketRates items

/-! Spec-side comparators (each follows the specification's words, for the
refinement claims; the operational definitions above follow the source) -/

/-- Median per the spec: for an even-length sorted sequence, the mean of the
two central values; for odd length, the single central value. -/
def specMedian (l : List ℚ) : ℚ :=
  if l.length % 2 = 1 then l.getD (l.length / 2) 0
  else (l.getD (l.length / 2 - 1) 0 + l.getD (l.length / 2) 0) / 2

/-- Quantile per the spec: `index = (n-1)*q`; if the index is fractional,
interpolate between the floor and ceil elements proportionally to the
fractional part. -/
def specQuantile (l : List ℚ) (q : ℚ) : ℚ :=
  let pos : ℚ := ((l.length : ℚ) - 1) * q
  let lower := l.getD ⌊pos⌋.toNat 0
  let upper := l.getD ⌈pos⌉.toNat 0
  lower + Int.fract pos * (upper - lower)

/-- Spec-side classification: a line is overpriced when its key has a known
market rate and the entered total exceeds 1.2 × avgPrice. -/
def isOverpricedItem (rates : List MarketRate) (it : LineItem) : Bool :=
  match rateAvgFor rates it with
  | some avg => decide (avg * 1.2 < itemTotal it)
  | none => false

/-- Spec-side classification: a line is questionable when its key has no known
market rate. -/
def isUnknownItem (rates : List MarketRate) (it : LineItem) : Bool :=
  (rateAvgFor rates it).isNone

/-- Spec-side classification: a line with a known rate that is not overpriced
is fair. -/
def isFairItem (rates : List MarketRate) (it : LineItem) : Bool :=
  match rateAvgFor rates it with
  | some avg => !decide (avg * 1.2 < itemTotal it)
  | none => false

/-- The note an overpriced line receives (the `none` arm is unreachable for
items selected by `isOverpricedItem`). -/
def overNoteFor (rates : List MarketRate) (it : LineItem) : String :=
  match rateAvgFor rates it with
  | some avg => overNote it (itemTotal it) (avg * 1.2)
  | none => withinNote it

/-- The note a fair line receives: the below-typical variant under 0.8 ×
avgPrice, the within-range variant otherwise (the `none` arm is unreachable
for items selected by `isFairItem`). -/
def fairNoteFor (rates : List MarketRate) (it : LineItem) : String :=
  match rateAvgFor rates it with
  | some avg =>
    if itemTotal it < avg * 0.8 then belowNote it (avg * 0.8) (avg * 1.2)
    else withinNote it
  | none => withinNote it

/-! Concrete fixtures for witnesses and counterexamples -/

/-- A quote holding only a price (no context, no AI snapshot). -/
def priceQuote (p : ℚ) : UserQuote :=
  { price := some p, city := none, vehicleId := none, userId := none,
    notes := none, atTime := 0, aiDecision := none }

/-- Empty submission context. -/
def metaNone : QuoteMeta := ⟨none, none, none, none, none⟩

/-- A catalog document with five user quotes, each priced 3/10: enough quotes
for the crowd tier, but the rounded median is 0. -/
def docTiny : CatalogDoc :=
  { key := "oil_change", label := none, currency := none, standardHours := none,
    baseRange := none,
    userQuotes := [priceQuote (3/10), priceQuote (3/10), priceQuote (3/10),
                   priceQuote (3/10), priceQuote (3/10)],
    quotesCount := 5, avgUserPrice := none, fairCount := 0, overpricedCount := 0,
    unknownCount := 0, updatedAt := 0 }

/-- A catalog document with six user quotes priced 1..6 (fractional median 7/2). -/
def docSix : CatalogDoc :=
  { key := "svc", label := none, currency := none, standardHours := none,
    baseRange := none,
    userQuotes := [priceQuote 1, priceQuote 2, priceQuote 3, priceQuote 4,
                   priceQuote 5, priceQuote 6],
    quotesCount := 6, avgUserPrice := none, fairCount := 0, overpricedCount := 0,
    unknownCount := 0, updatedAt := 0 }

/-- A catalog document with five integer-priced quotes (for the tier-1 witness). -/
def docFive : CatalogDoc :=
  { key := "oil_change", label := some "Oil Change", currency := some "PKR",
    standardHours := some (1/2), baseRange := none,
    userQuotes := [priceQuote 100, priceQuote 120, priceQuote 110, priceQuote 90,
                   priceQuote 130],
    quotesCount := 5, avgUserPrice := none, fairCount := 0, overpricedCount := 0,
    unknownCount := 0, updatedAt := 0 }

/-! Shared helper lemmas -/

theorem jsOr_ne_empty (a b : String) (hb : b ≠ "") : jsOr a b ≠ "" := by
  unfold jsOr; split
  · exact hb
  · assumption

theorem sortQ_sorted (l : List ℚ) : (sortQ l).Sorted (· ≤ ·) :=
  List.sorted_insertionSort _ l

theorem sortQ_perm (l : List ℚ) : List.Perm (sortQ l) l :=
  List.perm_insertionSort _ l

theorem sortQ_length (l : List ℚ) : (sortQ l).length = l.length :=
  (sortQ_perm l).length_eq

theorem sortQ_eq_of_sorted {l : List ℚ} (h : l.Sorted (· ≤ ·)) : sortQ l = l :=
  h.insertionSort_eq

theorem sortQ_ne_nil {l : List ℚ} (h : l ≠ []) : sortQ l ≠ [] := by
  intro h0
  apply h
  have hl := sortQ_length l
  rw [h0] at hl
  exact List.length_eq_zero.mp hl.symm

theorem floor_pos_bounds {n : ℕ} (hn : 0 < n) {q : ℚ} (h0 : 0 ≤ q) (h1 : q ≤ 1) :
    0 ≤ ⌊((n : ℚ) - 1) * q⌋ ∧ (⌊((n : ℚ) - 1) * q⌋).toNat < n ∧
      ((n : ℚ) - 1) * q ≤ (n : ℚ) - 1 := by
  have hn1 : (1 : ℚ) ≤ (n : ℚ) := by exact_mod_cast hn
  have hnn : (0 : ℚ) ≤ (n : ℚ) - 1 := by linarith
  have hpos0 : 0 ≤ ((n : ℚ) - 1) * q := mul_nonneg hnn h0
  have hposle : ((n : ℚ) - 1) * q ≤ (n : ℚ) - 1 := by
    calc ((n : ℚ) - 1) * q ≤ ((n : ℚ) - 1) * 1 := mul_le_mul_of_nonneg_left h1 hnn
      _ = (n : ℚ) - 1 := mul_one _
  have hfloor_int : ⌊(n : ℚ) - 1⌋ = (n : ℤ) - 1 := by
    rw [show ((n : ℚ) - 1) = (((n : ℤ) - 1 : ℤ) : ℚ) by push_cast; ring,
      Int.floor_intCast]
  have hfl : ⌊((n : ℚ) - 1) * q⌋ ≤ (n : ℤ) - 1 :=
    le_trans (Int.floor_le_floor hposle) (le_of_eq hfloor_int)
  exact ⟨Int.floor_nonneg.mpr hpos0, by omega, hposle⟩

theorem quantile_sorted_eq {a : List ℚ} (ha : a.Sorted (· ≤ ·)) (hne : a ≠ [])
    {q : ℚ} (h0 : 0 ≤ q) (h1 : q ≤ 1) :
    quantile a q = some (specQuantile a q) := by
  have hlen : 0 < a.length := List.length_pos.mpr hne
  obtain ⟨hb0, hblt, hple⟩ := floor_pos_bounds hlen h0 h1
  have hEmpty : a.isEmpty = false := by simp [List.isEmpty_iff, hne]
  have hsort : sortQ a = a := sortQ_eq_of_sorted ha
  simp only [quantile, hEmpty, Bool.false_eq_true, if_false, hsort]
  have h1i : jsIndex a ⌊((a.length : ℚ) - 1) * q⌋ =
      some (a.getD (⌊((a.length : ℚ) - 1) * q⌋).toNat 0) := by
    rw [jsIndex, if_pos hb0, List.getElem?_eq_getElem hblt,
      List.getD_eq_getElem a 0 hblt]
  rw [h1i]
  by_cases hc : (⌊((a.length : ℚ) - 1) * q⌋).toNat + 1 < a.length
  · have h2i : jsIndex a (⌊((a.length : ℚ) - 1) * q⌋ + 1) =
        some (a.getD ((⌊((a.length : ℚ) - 1) * q⌋).toNat + 1) 0) := by
      rw [jsIndex, if_pos (by omega), show (⌊((a.length : ℚ) - 1) * q⌋ + 1).toNat
        = (⌊((a.length : ℚ) - 1) * q⌋).toNat + 1 by omega,
        List.getElem?_eq_getElem hc, List.getD_eq_getElem a 0 hc]
    rw [h2i]
    simp only [specQuantile]
    congr 1
    rcases eq_or_ne (Int.fract (((a.length : ℚ) - 1) * q)) 0 with hf | hf
    · rw [Int.self_sub_floor, hf]
      ring
    · have hceil : ⌈((a.length : ℚ) - 1) * q⌉ = ⌊((a.length : ℚ) - 1) * q⌋ + 1 := by
        have hlow : (⌊((a.length : ℚ) - 1) * q⌋ : ℚ) ≤ ((a.length : ℚ) - 1) * q :=
          Int.floor_le _
        have hlt : ⌊((a.length : ℚ) - 1) * q⌋ < ⌈((a.length : ℚ) - 1) * q⌉ := by
          by_contra hle
          push_neg at hle
          have hup : ((a.length : ℚ) - 1) * q ≤ (⌊((a.length : ℚ) - 1) * q⌋ : ℚ) :=
            le_trans (Int.le_ceil _) (by exact_mod_cast hle)
          have : Int.fract (((a.length : ℚ) - 1) * q) = 0 := by
            rw [← Int.self_sub_floor]
            linarith
          exact hf this
        have hub := Int.ceil_le_floor_add_one (((a.length : ℚ) - 1) * q)
        omega
      rw [hceil, Int.self_sub_floor,
        show (⌊((a.length : ℚ) - 1) * q⌋ + 1).toNat
          = (⌊((a.length : ℚ) - 1) * q⌋).toNat + 1 by omega]
  · have h2i : jsIndex a (⌊((a.length : ℚ) - 1) * q⌋ + 1) = none := by
      rw [jsIndex, if_pos (by omega)]
      exact List.getElem?_eq_none (by omega)
    rw [h2i]
    simp only [specQuantile]
    congr 1
    have hposeq : ((a.length : ℚ) - 1) * q = (a.length : ℚ) - 1 := by
      have hbase_eq : ⌊((a.length : ℚ) - 1) * q⌋ = (a.length : ℤ) - 1 := by omega
      have hlow : (⌊((a.length : ℚ) - 1) * q⌋ : ℚ) ≤ ((a.length : ℚ) - 1) * q :=
        Int.floor_le _
      rw [hbase_eq] at hlow
      push_cast at hlow
      linarith
    have hf : Int.fract (((a.length : ℚ) - 1) * q) = 0 := by
      rw [hposeq, show ((a.length : ℚ) - 1) = (((a.length : ℤ) - 1 : ℤ) : ℚ) by
        push_cast; ring, Int.fract_intCast]
    rw [hf]
    ring

theorem median_sorted_eq {a : List ℚ} (ha : a.Sorted (· ≤ ·)) (hne : a ≠ []) :
    median a = some (specMedian a) := by
  have hEmpty : a.isEmpty = false := by simp [List.isEmpty_iff, hne]
  simp only [median, specMedian, hEmpty, Bool.false_eq_true, if_false,
    sortQ_eq_of_sorted ha]
  split <;> rfl

theorem quantile_eq_sortQ (l : List ℚ) (q : ℚ) :
    quantile l q = quantile (sortQ l) q := by
  rcases eq_or_ne l [] with rfl | hne
  · rfl
  · have hE : l.isEmpty = false := by simp [List.isEmpty_iff, hne]
    have hE2 : (sortQ l).isEmpty = false := by
      simp [List.isEmpty_iff, sortQ_ne_nil hne]
    simp only [quantile, hE, hE2, Bool.false_eq_true, if_false,
      sortQ_eq_of_sorted (sortQ_sorted l), sortQ_length]

theorem specQuantile_bounds {a : List ℚ} (ha : a.Sorted (· ≤ ·)) (hne : a ≠ [])
    {q : ℚ} (h0 : 0 ≤ q) (h1 : q ≤ 1) :
    (∃ x ∈ a, x ≤ specQuantile a q) ∧ (∃ y ∈ a, specQuantile a q ≤ y) := by
  have hlen : 0 < a.length := List.length_pos.mpr hne
  obtain ⟨hb0, hblt, hple⟩ := floor_pos_bounds hlen h0 h1
  have hceil_int : ⌈(a.length : ℚ) - 1⌉ = (a.length : ℤ) - 1 := by
    rw [show ((a.length : ℚ) - 1) = (((a.length : ℤ) - 1 : ℤ) : ℚ) by push_cast; ring,
      Int.ceil_intCast]
  have hcle : ⌈((a.length : ℚ) - 1) * q⌉ ≤ (a.length : ℤ) - 1 :=
    le_trans (Int.ceil_le_ceil hple) (le_of_eq hceil_int)
  have hc0 : 0 ≤ ⌈((a.length : ℚ) - 1) * q⌉ :=
    le_trans hb0 (Int.floor_le_ceil _)
  have hclt : (⌈((a.length : ℚ) - 1) * q⌉).toNat < a.length := by omega
  have hmono : a.getD (⌊((a.length : ℚ) - 1) * q⌋).toNat 0 ≤
      a.getD (⌈((a.length : ℚ) - 1) * q⌉).toNat 0 := by
    rw [List.getD_eq_getElem a 0 hblt, List.getD_eq_getElem a 0 hclt]
    have hle : (⟨(⌊((a.length : ℚ) - 1) * q⌋).toNat, hblt⟩ : Fin a.length) ≤
        ⟨(⌈((a.length : ℚ) - 1) * q⌉).toNat, hclt⟩ := by
      have := Int.floor_le_ceil (((a.length : ℚ) - 1) * q)
      simp only [Fin.mk_le_mk]
      omega
    exact ha.rel_get_of_le hle
  have hf0 : 0 ≤ Int.fract (((a.length : ℚ) - 1) * q) := Int.fract_nonneg _
  have hf1 : Int.fract (((a.length : ℚ) - 1) * q) ≤ 1 :=
    le_of_lt (Int.fract_lt_one _)
  constructor
  · refine ⟨a.getD (⌊((a.length : ℚ) - 1) * q⌋).toNat 0, ?_, ?_⟩
    · rw [List.getD_eq_getElem a 0 hblt]
      exact List.getElem_mem hblt
    · simp only [specQuantile]
      nlinarith [mul_nonneg hf0 (sub_nonneg.mpr hmono)]
  · refine ⟨a.getD (⌈((a.length : ℚ) - 1) * q⌉).toNat 0, ?_, ?_⟩
    · rw [List.getD_eq_getElem a 0 hclt]
      exact List.getElem_mem hclt
    · simp only [specQuantile]
      nlinarith [mul_nonneg (sub_nonneg.mpr hf1) (sub_nonneg.mpr hmono)]

theorem slugCharsAux_cons_ne_nil (c : Char) (t : List Char) :
    slugCharsAux (c :: t) false ≠ [] := by
  simp only [slugCharsAux]
  split <;> simp

theorem slug_ne_empty {t : String} (h : t.data ≠ []) : slug t ≠ "" := by
  intro he
  apply h
  rcases hq : t.data with _ | ⟨c, r⟩
  · rfl
  · exfalso
    apply slugCharsAux_cons_ne_nil c r
    have hdata : (slug t).data = slugCharsAux t.data false := rfl
    rw [he] at hdata
    rw [hq] at hdata
    exact hdata.symm

theorem normalizeServiceKey_cases (s : String) :
    normalizeServiceKey s = slug (jsToLower s) ∨
      normalizeServiceKey s ∈ ["oil_change", "brake_pads", "air_filter",
        "cabin_filter", "coolant", "tires", "spark_plugs", "transmission_fluid",
        "battery", "wiper_blades"] := by
  simp only [normalizeServiceKey]
  by_cases h1 : strContains (jsToLower s) "oil" = true
  · simp [h1]
  by_cases h2 : strContains (jsToLower s) "brake" = true
  · simp [h1, h2]
  by_cases h3 : (strContains (jsToLower s) "air filter"
      || strContains (jsToLower s) "engine filter") = true
  · simp [h1, h2, h3]
  by_cases h4 : (strContains (jsToLower s) "cabin"
      || strContains (jsToLower s) "pollen") = true
  · simp [h1, h2, h3, h4]
  by_cases h5 : (strContains (jsToLower s) "coolant"
      || strContains (jsToLower s) "radiator") = true
  · simp [h1, h2, h3, h4, h5]
  by_cases h6 : (strContains (jsToLower s) "tire"
      || strContains (jsToLower s) "tyre") = true
  · simp [h1, h2, h3, h4, h5, h6]
  by_cases h7 : strContains (jsToLower s) "spark" = true
  · simp [h1, h2, h3, h4, h5, h6, h7]
  by_cases h8 : strContains (jsToLower s) "transmission" = true
  · simp [h1, h2, h3, h4, h5, h6, h7, h8]
  by_cases h9 : strContains (jsToLower s) "battery" = true
  · simp [h1, h2, h3, h4, h5, h6, h7, h8, h9]
  by_cases h10 : strContains (jsToLower s) "wiper" = true
  · simp [h1, h2, h3, h4, h5, h6, h7, h8, h9, h10]
  simp [h1, h2, h3, h4, h5, h6, h7, h8, h9, h10]

theorem countsFold (l : List UserQuote) (a b c : ℕ) :
    l.foldl countStep (a, b, c) =
      (a + l.countP (fun q => q.aiDecision == some AiDecision.fair),
       b + l.countP (fun q => q.aiDecision == some AiDecision.overpriced),
       c + l.countP (fun q => q.aiDecision == some AiDecision.unknown
            || q.aiDecision == none)) := by
  induction l generalizing a b c with
  | nil => simp
  | cons q t ih =>
    rw [List.foldl_cons]
    rcases hq : q.aiDecision with _ | d
    · simp only [countStep, hq]
      rw [ih]
      simp [List.countP_cons, hq]
      omega
    · cases d
      all_goals
        simp only [countStep, hq]
        rw [ih]
        simp [List.countP_cons, hq]
        try omega

theorem foldl_add_price (l : List UserQuote) (s : ℚ) :
    l.foldl (fun acc q => acc + q.price.getD 0) s =
      s + (l.map (fun q => q.price.getD 0)).sum := by
  induction l generalizing s with
  | nil => simp
  | cons q t ih => simp [ih, add_assoc]

theorem recomputeRollups_spec (d : CatalogDoc) :
    (recomputeRollups d).userQuotes = d.userQuotes ∧
    (recomputeRollups d).quotesCount = d.userQuotes.length ∧
    (0 < d.userQuotes.length → (recomputeRollups d).avgUserPrice =
      some (round2 ((d.userQuotes.map (fun q => q.price.getD 0)).sum /
        d.userQuotes.length))) ∧
    (recomputeRollups d).fairCount =
      d.userQuotes.countP (fun q => q.aiDecision == some AiDecision.fair) ∧
    (recomputeRollups d).overpricedCount =
      d.userQuotes.countP (fun q => q.aiDecision == some AiDecision.overpriced) ∧
    (recomputeRollups d).unknownCount =
      d.userQuotes.countP (fun q => q.aiDecision == some AiDecision.unknown
        || q.aiDecision == none) := by
  refine ⟨rfl, rfl, ?_, ?_, ?_, ?_⟩
  · intro hpos
    simp only [recomputeRollups, if_pos hpos]
    rw [foldl_add_price]
    simp
  all_goals
    simp only [recomputeRollups, countsFold]
    simp

theorem positivePrices_append (l1 l2 : List UserQuote) :
    positivePrices (l1 ++ l2) = positivePrices l1 ++ positivePrices l2 := by
  simp [positivePrices, List.filterMap_append, List.filter_append]

theorem positivePrices_new (p : ℚ) (meta : QuoteMeta) (now : ℕ) (hp : 0 < p) :
    positivePrices [newUserQuote p meta now] = [p] := by
  simp [positivePrices, newUserQuote, hp]

theorem positivePrices_pos (quotes : List UserQuote) :
    ∀ x ∈ positivePrices quotes, 0 < x := by
  intro x hx
  simp only [positivePrices, List.mem_filter] at hx
  exact of_decide_eq_true hx.2

theorem quantile_bounds_some (l : List ℚ) (q : ℚ) (hne : l ≠ [])
    (h0 : 0 ≤ q) (h1 : q ≤ 1) :
    ∃ v, quantile l q = some v ∧ (∃ x ∈ l, x ≤ v) ∧ (∃ y ∈ l, v ≤ y) := by
  have hs := sortQ_sorted l
  have hne' := sortQ_ne_nil hne
  rw [quantile_eq_sortQ l q, quantile_sorted_eq hs hne' h0 h1]
  refine ⟨specQuantile (sortQ l) q, rfl, ?_, ?_⟩
  · obtain ⟨⟨x, hx, hxle⟩, _⟩ := specQuantile_bounds hs hne' h0 h1
    exact ⟨x, (sortQ_perm l).mem_iff.mp hx, hxle⟩
  · obtain ⟨_, ⟨y, hy, hyle⟩⟩ := specQuantile_bounds hs hne' h0 h1
    exact ⟨y, (sortQ_perm l).mem_iff.mp hy, hyle⟩

theorem heurRow_avg_ge (k : String) : 35 ≤ (heurRow k).avg := by
  by_cases e1 : k = "oil_change"
  · subst e1; decide
  by_cases e2 : k = "brake_pads"
  · subst e2; decide
  by_cases e3 : k = "rotors"
  · subst e3; decide
  by_cases e4 : k = "tires"
  · subst e4; decide
  by_cases e5 : k = "air_filter"
  · subst e5; decide
  by_cases e6 : k = "cabin_filter"
  · subst e6; decide
  by_cases e7 : k = "coolant"
  · subst e7; decide
  by_cases e8 : k = "spark_plugs"
  · subst e8; decide
  by_cases e9 : k = "transmission_fluid"
  · subst e9; decide
  by_cases e10 : k = "battery"
  · subst e10; decide
  by_cases e11 : k = "wiper_blades"
  · subst e11; decide
  have ht : heurTable k = none := by
    simp only [heurTable, if_neg e1, if_neg e2, if_neg e3, if_neg e4, if_neg e5,
      if_neg e6, if_neg e7, if_neg e8, if_neg e9, if_neg e10, if_neg e11]
  simp only [heurRow, ht]
  by_cases c1 : strContains k "rotor" = true
  · simp only [if_pos c1]; norm_num [rowRotors]
  rw [if_neg c1]
  by_cases c2 : strContains k "brake" = true
  · simp only [if_pos c2]; norm_num [rowBrakePads]
  rw [if_neg c2]
  by_cases c3 : (strContains k "tire" || strContains k "tyre") = true
  · simp only [if_pos c3]; norm_num [rowTires]
  rw [if_neg c3]
  by_cases c4 : strContains k "cabin" = true
  · simp only [if_pos c4]; norm_num [rowCabinFilter]
  rw [if_neg c4]
  by_cases c5 : (strContains k "air" && strContains k "filter") = true
  · simp only [if_pos c5]; norm_num [rowAirFilter]
  rw [if_neg c5]
  by_cases c6 : strContains k "spark" = true
  · simp only [if_pos c6]; norm_num [rowSparkPlugs]
  rw [if_neg c6]
  by_cases c7 : strContains k "transmission" = true
  · simp only [if_pos c7]; norm_num [rowTransmissionFluid]
  rw [if_neg c7]
  by_cases c8 : (strContains k "coolant" || strContains k "radiator") = true
  · simp only [if_pos c8]; norm_num [rowCoolant]
  rw [if_neg c8]
  by_cases c9 : strContains k "battery" = true
  · simp only [if_pos c9]; norm_num [rowBattery]
  rw [if_neg c9]
  by_cases c10 : strContains k "wiper" = true
  · simp only [if_pos c10]; norm_num [rowWiperBlades]
  rw [if_neg c10]
  norm_num

theorem computeHeuristicRate_avg_pos (key lbl : String) :
    0 < (computeHeuristicRate key lbl).avgPrice := by
  have h := heurRow_avg_ge (jsToLower key)
  have h2 : (35 : ℤ) ≤ jsRound (heurRow (jsToLower key)).avg := by
    rw [jsRound]
    refine Int.le_floor.mpr ?_
    push_cast
    linarith
  simp only [computeHeuristicRate]
  exact_mod_cast lt_of_lt_of_le (by norm_num : (0:ℤ) < 35) h2

theorem computeHeuristicRate_currency (key lbl : String) :
    (computeHeuristicRate key lbl).currency = "USD" := rfl

/-! Claim theorems -/

/-- C2: the statistics helpers implement exactly the spec's definitions —
median of a sorted list is the central value (odd length) or the mean of the
two central values (even length), and quantile(q) interpolates between the
floor and ceil order statistics at index (n-1)·q proportionally to the
fractional part; in particular for [100,120,110,90,130] the median is 110,
the 0.25-quantile is 100 and the 0.75-quantile is 120. -/
theorem stats_helpers_match_spec :
    (∀ a : List ℚ, a.Sorted (· ≤ ·) → a ≠ [] → median a = some (specMedian a)) ∧
    (∀ a : List ℚ, a.Sorted (· ≤ ·) → a ≠ [] → ∀ q : ℚ, 0 ≤ q → q ≤ 1 →
      quantile a q = some (specQuantile a q)) ∧
    median [100, 120, 110, 90, 130] = some 110 ∧
    quantile [100, 120, 110, 90, 130] (1/4) = some 100 ∧
    quantile [100, 120, 110, 90, 130] (3/4) = some 120 := by
  refine ⟨fun a ha hne => median_sorted_eq ha hne,
    fun a ha hne q h0 h1 => quantile_sorted_eq ha hne h0 h1, by decide, ?_, ?_⟩
  · norm_num [quantile, sortQ, List.insertionSort, List.orderedInsert, jsIndex]
  · norm_num [quantile, sortQ, List.insertionSort, List.orderedInsert, jsIndex]
    rfl

/-- Witness for C2 at the sorted list [90,100,110,120,130] and q = 1/4. -/
theorem stats_helpers_match_spec_witness :
    (([90, 100, 110, 120, 130] : List ℚ).Sorted (· ≤ ·) ∧
      ([90, 100, 110, 120, 130] : List ℚ) ≠ [] ∧ (0 : ℚ) ≤ 1/4 ∧ (1 : ℚ)/4 ≤ 1) ∧
    median [90, 100, 110, 120, 130] = some (specMedian [90, 100, 110, 120, 130]) ∧
    quantile [90, 100, 110, 120, 130] (1/4) =
      some (specQuantile [90, 100, 110, 120, 130] (1/4)) :=
  ⟨⟨by decide, by decide, by norm_num, by norm_num⟩,
    stats_helpers_match_spec.1 _ (by decide) (by decide),
    stats_helpers_match_spec.2.1 _ (by decide) (by decide) _ (by norm_num) (by norm_num)⟩

/-- C10: for every non-empty price list and every q in [0,1], the quantile
function reads only valid indices (it returns a value, the out-of-bounds
branch is never the outcome, including at q = 1), and the result lies between
some element below it and some element above it — i.e. within [min, max] of
the list. -/
theorem quantile_safe_in_range (l : List ℚ) (q : ℚ) (hne : l ≠ [])
    (h0 : 0 ≤ q) (h1 : q ≤ 1) :
    ∃ v, quantile l q = some v ∧ (∃ x ∈ l, x ≤ v) ∧ (∃ y ∈ l, v ≤ y) :=
  quantile_bounds_some l q hne h0 h1

/-- Witness for C10 at the unsorted list [3,1,2] and q = 1/2. -/
theorem quantile_safe_in_range_witness :
    ([3, 1, 2] : List ℚ) ≠ [] ∧ (0 : ℚ) ≤ 1/2 ∧ (1 : ℚ)/2 ≤ 1 ∧
    ∃ v, quantile [3, 1, 2] (1/2) = some v ∧
      (∃ x ∈ ([3, 1, 2] : List ℚ), x ≤ v) ∧ (∃ y ∈ ([3, 1, 2] : List ℚ), v ≤ y) :=
  ⟨by decide, by norm_num, by norm_num,
    quantile_safe_in_range [3, 1, 2] (1/2) (by decide) (by norm_num) (by norm_num)⟩

/-- C3: the claim states that labels containing both "brake" and "rotor"
normalize to "rotors". The cited `normalizeServiceKey` (inspections.js and its
frontend copy) has no brake+rotor rule — its plain brake rule fires first and
returns "brake_pads" — while the guidesChat.js copy of the same function does
implement the claimed rule and returns "rotors". Evaluated at the failing
input "brake rotor". -/
theorem normalize_brake_rotor_divergence :
    normalizeServiceKey "brake rotor" = "brake_pads" ∧
    normalizeServiceKeyGuides "brake rotor" = "rotors" := by decide

/-- C9 counterexample: with no provider credential the batch endpoint's guard
response has HTTP status 500 — which lies in the generic 5xx range the claim
rules out. -/
theorem quote_analyze_unconfigured_is_5xx :
    (aiQuoteAnalyzeHandler false (fun _ _ => ⟨200, none, none, some false⟩)
      [] []).status = 500 ∧
    500 ≤ (aiQuoteAnalyzeHandler false (fun _ _ => ⟨200, none, none, some false⟩)
      [] []).status ∧
    (aiQuoteAnalyzeHandler false (fun _ _ => ⟨200, none, none, some false⟩)
      [] []).status < 600 := by
  refine ⟨rfl, ?_, ?_⟩ <;> simp [aiQuoteAnalyzeHandler]

/-- C9 amended: when no AI provider credential is configured the batch
comparison endpoint answers every request early — before any per-item
processing and independently of the rest of the handler — with the distinct
body "Gemini API key missing on server", but carried on a generic HTTP 500
status (not a non-5xx or dedicated unavailable status). -/
theorem quote_analyze_unconfigured_early_distinct :
    ∀ (rest : List MarketRate → List LineItem → AnalyzeResponse)
      (rates : List MarketRate) (items : List LineItem),
      aiQuoteAnalyzeHandler false rest rates items =
        { status := 500, error := some "Gemini API key missing on server",
          gemini := none, fallback := none } :=
  fun _ _ _ => rfl

/-- C5 counterexample: the normalizer is not non-empty-valued on every input —
the empty string normalizes to the empty key (no substring rule fires and the
slug of "" is ""). -/
theorem normalize_empty_input_empty_key : normalizeServiceKey "" = "" := by decide

/-- C5 amended: the normalizer is a pure total function; it returns a
non-empty key for every non-empty input (only the empty string maps to the
empty key), and it is idempotent on canonical keys. -/
theorem normalize_nonempty_and_idempotent :
    (∀ s : String, s ≠ "" → normalizeServiceKey s ≠ "") ∧
    (∀ k, k ∈ canonicalKeys →
      normalizeServiceKey (normalizeServiceKey k) = normalizeServiceKey k) := by
  constructor
  · intro s hs
    have hd : (jsToLower s).data ≠ [] := by
      intro h
      apply hs
      cases s with
      | mk data =>
        cases data with
        | nil => rfl
        | cons c t => simp [jsToLower] at h
    rcases normalizeServiceKey_cases s with h | h
    · rw [h]
      exact slug_ne_empty hd
    · intro he
      rw [he] at h
      simp at h
  · decide

/-- Witness for C5 (amended) at the non-empty input "tires" and the canonical
key "oil_change". -/
theorem normalize_nonempty_and_idempotent_witness :
    ("tires" ≠ "" ∧ normalizeServiceKey "tires" ≠ "") ∧
    ("oil_change" ∈ canonicalKeys ∧
      normalizeServiceKey (normalizeServiceKey "oil_change") =
        normalizeServiceKey "oil_change") :=
  ⟨⟨by decide, normalize_nonempty_and_idempotent.1 "tires" (by decide)⟩,
   ⟨by decide, normalize_nonempty_and_idempotent.2 "oil_change" (by decide)⟩⟩

/-- C6: a submission with a non-numeric, zero or negative price, or whose key
normalizes to the empty string, is a silent no-op: recording returns without
error and the catalog entry (quote list and rollups) is completely unchanged. -/
theorem upsert_rejects_invalid_silently :
    ∀ (entry : Option CatalogDoc) (key : String) (price : Option ℚ)
      (meta : QuoteMeta) (now : ℕ),
      (price = none ∨ (∃ p, price = some p ∧ p ≤ 0) ∨
        normalizeServiceKey key = "") →
      upsertCatalogQuote entry key price meta now = entry := by
  intro entry key price meta now h
  rcases h with rfl | ⟨p, rfl, hp⟩ | hk
  · rfl
  · simp only [upsertCatalogQuote]
    rw [if_pos (Or.inr hp)]
  · cases price with
    | none => rfl
    | some p =>
      simp only [upsertCatalogQuote]
      rw [if_pos (Or.inl hk)]

/-- Witness for C6 at the negative price -5 on an absent entry. -/
theorem upsert_rejects_invalid_silently_witness :
    ((some (-5 : ℚ) = none) ∨ (∃ p, some (-5 : ℚ) = some p ∧ p ≤ 0) ∨
      normalizeServiceKey "oil change" = "") ∧
    upsertCatalogQuote none "oil change" (some (-5)) metaNone 0 = none :=
  ⟨Or.inr (Or.inl ⟨-5, rfl, by norm_num⟩),
   upsert_rejects_invalid_silently none "oil change" (some (-5)) metaNone 0
     (Or.inr (Or.inl ⟨-5, rfl, by norm_num⟩))⟩

/-- C4: after a successful quote append the entry's rollups are a pure
function of its quote list — quotesCount is the list length, avgUserPrice is
the arithmetic mean of the recorded prices rounded to two decimals, and the
fair/overpriced/unknown counters count the quotes whose AI snapshot decision
equals that value, quotes with no snapshot counting as unknown (the model's
pre-save `recomputeRollups` hook establishes this on every save). -/
theorem upsert_rollups_pure_function (entry : Option CatalogDoc) (key : String)
    (p : ℚ) (meta : QuoteMeta) (now : ℕ)
    (hk : normalizeServiceKey key ≠ "") (hp : 0 < p) :
    ∃ doc', upsertCatalogQuote entry key (some p) meta now = some doc' ∧
      doc'.quotesCount = doc'.userQuotes.length ∧
      doc'.avgUserPrice = some (round2
        ((doc'.userQuotes.map (fun q => q.price.getD 0)).sum /
          doc'.userQuotes.length)) ∧
      doc'.fairCount =
        doc'.userQuotes.countP (fun q => q.aiDecision == some AiDecision.fair) ∧
      doc'.overpricedCount =
        doc'.userQuotes.countP
          (fun q => q.aiDecision == some AiDecision.overpriced) ∧
      doc'.unknownCount = doc'.userQuotes.countP
        (fun q => q.aiDecision == some AiDecision.unknown
          || q.aiDecision == none) := by
  simp only [upsertCatalogQuote]
  rw [if_neg (by simp [hk, not_le.mpr hp])]
  set base : CatalogDoc := (match entry with
    | some doc => doc
    | none =>
      { key := normalizeServiceKey key
        label := some (jsOr (meta.label.getD "") (normalizeServiceKey key))
        currency := some "PKR"
        standardHours := none
        baseRange := none
        userQuotes := []
        quotesCount := 0
        avgUserPrice := none
        fairCount := 0
        overpricedCount := 0
        unknownCount := 0
        updatedAt := now }) with hbase
  have hpp : positivePrices (base.userQuotes ++ [newUserQuote p meta now]) =
      positivePrices base.userQuotes ++ [p] := by
    rw [positivePrices_append, positivePrices_new p meta now hp]
  rw [hpp]
  rw [if_pos (by simp)]
  refine ⟨_, rfl, ?_⟩
  have hs := recomputeRollups_spec
    { base with
      userQuotes := base.userQuotes ++ [newUserQuote p meta now]
      quotesCount := base.quotesCount + 1
      updatedAt := now
      avgUserPrice := some ((jsRound ((positivePrices base.userQuotes ++ [p]).sum /
        (positivePrices base.userQuotes ++ [p]).length) : ℤ) : ℚ) }
  obtain ⟨hq, hc, ha, hf, ho, hu⟩ := hs
  simp only [hq] at *
  refine ⟨hc, ?_, hf, ho, hu⟩
  exact ha (by simp)

/-- Witness for C4: appending a 120-priced quote for "brake service" on an
absent entry. -/
theorem upsert_rollups_pure_function_witness :
    normalizeServiceKey "brake service" ≠ "" ∧ (0 : ℚ) < 120 ∧
    ∃ doc', upsertCatalogQuote none "brake service" (some 120) metaNone 3 =
        some doc' ∧
      doc'.quotesCount = doc'.userQuotes.length ∧
      doc'.avgUserPrice = some (round2
        ((doc'.userQuotes.map (fun q => q.price.getD 0)).sum /
          doc'.userQuotes.length)) ∧
      doc'.fairCount =
        doc'.userQuotes.countP (fun q => q.aiDecision == some AiDecision.fair) ∧
      doc'.overpricedCount =
        doc'.userQuotes.countP
          (fun q => q.aiDecision == some AiDecision.overpriced) ∧
      doc'.unknownCount = doc'.userQuotes.countP
        (fun q => q.aiDecision == some AiDecision.unknown
          || q.aiDecision == none) :=
  ⟨by decide, by norm_num,
   upsert_rollups_pure_function none "brake service" 120 metaNone 3
     (by decide) (by norm_num)⟩

/-- C7 counterexample: the resolver's avgPrice is not always strictly
positive — on a catalog entry holding five quotes priced 3/10 each (all
positive, so they pass the quote gate), the crowd tier rounds the median 3/10
to 0. -/
theorem resolver_avg_not_positive_counterexample :
    (getCatalogRateForKey (some (some docTiny)) "oil_change" "Oil change").avgPrice
      = 0 ∧
    (getCatalogRateForKey (some (some docTiny)) "oil_change" "Oil change").source
      = "catalog:user_quotes" := by
  have h1 : positivePrices docTiny.userQuotes = [3/10, 3/10, 3/10, 3/10, 3/10] := by
    norm_num [docTiny, positivePrices, priceQuote, List.filterMap_cons,
      List.filter_cons]
  have h2 : median [(3:ℚ)/10, 3/10, 3/10, 3/10, 3/10] = some (3/10) := by
    norm_num [median, sortQ, List.insertionSort, List.orderedInsert]
  have h3 : jsRound (3/10) = 0 := by norm_num [jsRound]
  rw [getCatalogRateForKey]
  norm_num [h1, h2, h3]

/-- C7 amended: the resolver is total and never throws; every result carries a
non-empty currency tag; and whenever no catalog document exists for the key or
the catalog lookup errors, it degrades to the heuristic table entry, whose
avgPrice is strictly positive for every key (a catalog-backed result's rounded
avgPrice, by contrast, can be 0 or negative). -/
theorem resolver_total_currency_heuristic_positive :
    (∀ (lookup : Option (Option CatalogDoc)) (key lbl : String),
      (getCatalogRateForKey lookup key lbl).currency ≠ "") ∧
    (∀ key lbl : String, 0 < (computeHeuristicRate key lbl).avgPrice) ∧
    (∀ key lbl : String,
      getCatalogRateForKey none key lbl =
        computeHeuristicRate (normalizeServiceKey (jsOr (jsOr key lbl) "")) lbl ∧
      getCatalogRateForKey (some none) key lbl =
        computeHeuristicRate (normalizeServiceKey (jsOr (jsOr key lbl) "")) lbl) := by
  refine ⟨?_, computeHeuristicRate_avg_pos, fun key lbl => ⟨rfl, rfl⟩⟩
  intro lookup key lbl
  rcases lookup with _ | lk
  · rw [show getCatalogRateForKey none key lbl =
      computeHeuristicRate (normalizeServiceKey (jsOr (jsOr key lbl) "")) lbl from
        rfl, computeHeuristicRate_currency]
    decide
  rcases lk with _ | doc
  · rw [show getCatalogRateForKey (some none) key lbl =
      computeHeuristicRate (normalizeServiceKey (jsOr (jsOr key lbl) "")) lbl from
        rfl, computeHeuristicRate_currency]
    decide
  simp only [getCatalogRateForKey]
  split
  · exact jsOr_ne_empty _ _ (by decide)
  · split
    · split
      · exact jsOr_ne_empty _ _ (by decide)
      · rw [computeHeuristicRate_currency]; decide
    · rw [computeHeuristicRate_currency]; decide

/-- C1 counterexample: the crowd tier does not report the raw
{median, p25, p75} — on six quotes priced 1..6 the median is 7/2 while the
reported avgPrice is the rounded value 4. -/
theorem rate_resolver_rounds_median :
    (getCatalogRateForKey (some (some docSix)) "svc" "svc").avgPrice = 4 ∧
    median (positivePrices docSix.userQuotes) = some (7/2) ∧ ((7:ℚ)/2) ≠ 4 := by
  have h1 : positivePrices docSix.userQuotes = [1, 2, 3, 4, 5, 6] := by
    norm_num [docSix, positivePrices, priceQuote, List.filterMap_cons,
      List.filter_cons]
  have h2 : median [(1:ℚ), 2, 3, 4, 5, 6] = some (7/2) := by
    norm_num [median, sortQ, List.insertionSort, List.orderedInsert]
  have h3 : jsRound (7/2) = 4 := by norm_num [jsRound]
  refine ⟨?_, by rw [h1]; exact h2, by norm_num⟩
  rw [getCatalogRateForKey]
  norm_num [h1, h2, h3]

/-- C1 amended: the resolver follows the fixed three-tier fallback, first
applicable wins — with at least 5 positive user-quote prices it returns the
rounded median as avg and the rounded p25/p75 as min/max (the code's extra
clamp of min at 0 is a no-op since p25 is positive), source
"catalog:user_quotes"; otherwise with a curated baseline range whose min and
max are both present it returns that range with the rounded midpoint as avg,
source "catalog:base_range"; otherwise (and likewise when no document exists
or the lookup errors) it returns the static heuristic entry, source
"heuristic". -/
theorem rate_resolver_tiers (doc : CatalogDoc) (key lbl : String) :
    (5 ≤ (positivePrices doc.userQuotes).length →
      getCatalogRateForKey (some (some doc)) key lbl =
        { key := normalizeServiceKey (jsOr (jsOr key lbl) "")
          label := jsOr (doc.label.getD "")
            (jsOr lbl (normalizeServiceKey (jsOr (jsOr key lbl) "")))
          avgPrice :=
            (jsRound ((median (positivePrices doc.userQuotes)).getD 0) : ℚ)
          rangeMin :=
            (jsRound ((quantile (positivePrices doc.userQuotes) (1/4)).getD 0) : ℚ)
          rangeMax :=
            (jsRound ((quantile (positivePrices doc.userQuotes) (3/4)).getD 0) : ℚ)
          standardHours := doc.standardHours
          currency := jsOr (doc.currency.getD "") "PKR"
          source := "catalog:user_quotes"
          quotesCount := some (positivePrices doc.userQuotes).length }) ∧
    ((positivePrices doc.userQuotes).length < 5 →
      ∀ br bmin bmax, doc.baseRange = some br → br.min = some bmin →
        br.max = some bmax →
        getCatalogRateForKey (some (some doc)) key lbl =
          { key := normalizeServiceKey (jsOr (jsOr key lbl) "")
            label := jsOr (doc.label.getD "")
              (jsOr lbl (normalizeServiceKey (jsOr (jsOr key lbl) "")))
            avgPrice := (jsRound ((bmin + bmax) / 2) : ℚ)
            rangeMin := bmin
            rangeMax := bmax
            standardHours := doc.standardHours
            currency := jsOr (doc.currency.getD "") "PKR"
            source := "catalog:base_range"
            quotesCount := some (positivePrices doc.userQuotes).length }) ∧
    ((positivePrices doc.userQuotes).length < 5 →
      (doc.baseRange = none ∨
        ∃ br, doc.baseRange = some br ∧ (br.min = none ∨ br.max = none)) →
      getCatalogRateForKey (some (some doc)) key lbl =
        computeHeuristicRate (normalizeServiceKey (jsOr (jsOr key lbl) "")) lbl) ∧
    (getCatalogRateForKey none key lbl =
        computeHeuristicRate (normalizeServiceKey (jsOr (jsOr key lbl) "")) lbl ∧
      getCatalogRateForKey (some none) key lbl =
        computeHeuristicRate (normalizeServiceKey (jsOr (jsOr key lbl) "")) lbl) := by
  refine ⟨?_, ?_, ?_, rfl, rfl⟩
  · intro h5
    have hne : positivePrices doc.userQuotes ≠ [] := by
      intro h0
      rw [h0] at h5
      simp at h5
    obtain ⟨v, hv, ⟨x, hx, hxv⟩, _⟩ :=
      quantile_bounds_some (positivePrices doc.userQuotes) (1/4) hne
        (by norm_num) (by norm_num)
    have hvpos : 0 < v := lt_of_lt_of_le (positivePrices_pos _ x hx) hxv
    have hjr : 0 ≤ jsRound
        ((quantile (positivePrices doc.userQuotes) (1/4)).getD 0) := by
      rw [hv]
      simp only [Option.getD_some]
      rw [jsRound]
      exact Int.floor_nonneg.mpr (by linarith)
    simp only [getCatalogRateForKey]
    rw [if_pos h5]
    rw [max_eq_right hjr]
  · intro h5 br bmin bmax hbr hmin hmax
    simp only [getCatalogRateForKey]
    rw [if_neg (not_le.mpr h5), hbr]
    simp only [hmin, hmax]
  · intro h5 hcase
    simp only [getCatalogRateForKey]
    rw [if_neg (not_le.mpr h5)]
    rcases hcase with hnone | ⟨br, hbr, hside⟩
    · rw [hnone]
    · rw [hbr]
      rcases hside with hmin | hmax
      · simp only [hmin]
      · rcases hmn : br.min with _ | bmin
        · simp only [hmn]
        · simp only [hmn, hmax]

/-- Witness for C1 (amended) on the five-quote document, crowd tier. -/
theorem rate_resolver_tiers_witness :
    5 ≤ (positivePrices docFive.userQuotes).length ∧
    getCatalogRateForKey (some (some docFive)) "oil changing" "Oil" =
      { key := normalizeServiceKey (jsOr (jsOr "oil changing" "Oil") "")
        label := jsOr (docFive.label.getD "")
          (jsOr "Oil" (normalizeServiceKey (jsOr (jsOr "oil changing" "Oil") "")))
        avgPrice :=
          (jsRound ((median (positivePrices docFive.userQuotes)).getD 0) : ℚ)
        rangeMin :=
          (jsRound ((quantile (positivePrices docFive.userQuotes) (1/4)).getD 0) : ℚ)
        rangeMax :=
          (jsRound ((quantile (positivePrices docFive.userQuotes) (3/4)).getD 0) : ℚ)
        standardHours := docFive.standardHours
        currency := jsOr (docFive.currency.getD "") "PKR"
        source := "catalog:user_quotes"
        quotesCount := some (positivePrices docFive.userQuotes).length } :=
  ⟨by decide, (rate_resolver_tiers docFive "oil changing" "Oil").1 (by decide)⟩

theorem fallbackLoop_spec (rates : List MarketRate) (items : List LineItem)
    (acc : List String × List String × List String) :
    items.foldl (fallbackStep rates) acc =
      (acc.1 ++ (items.filter (isOverpricedItem rates)).map (overNoteFor rates),
       acc.2.1 ++ (items.filter (isUnknownItem rates)).map
         (fun it => unknownNote it (itemTotal it)),
       acc.2.2 ++ (items.filter (isFairItem rates)).map (fairNoteFor rates)) := by
  induction items generalizing acc with
  | nil => simp
  | cons it t ih =>
    rw [List.foldl_cons, ih]
    rcases h : rateAvgFor rates it with _ | avg
    · have hstep : fallbackStep rates acc it =
          (acc.1, acc.2.1 ++ [unknownNote it (itemTotal it)], acc.2.2) := by
        simp only [fallbackStep, h]
      rw [hstep]
      simp [isOverpricedItem, isUnknownItem, isFairItem, h, List.filter_cons]
    · by_cases hov : avg * 1.2 < itemTotal it
      · have hstep : fallbackStep rates acc it =
            (acc.1 ++ [overNote it (itemTotal it) (avg * 1.2)], acc.2.1, acc.2.2) := by
          simp only [fallbackStep, h]
          rw [if_pos hov]
        rw [hstep]
        have hnote : overNoteFor rates it = overNote it (itemTotal it) (avg * 1.2) := by
          simp [overNoteFor, h]
        simp [isOverpricedItem, isUnknownItem, isFairItem, h, hov, hnote,
          List.filter_cons]
      · have hstep : fallbackStep rates acc it =
            (acc.1, acc.2.1, acc.2.2 ++ [fairNoteFor rates it]) := by
          simp only [fallbackStep, fairNoteFor, h]
          rw [if_neg hov]
          by_cases hlow : itemTotal it < avg * 0.8
          · rw [if_pos hlow, if_pos hlow]
          · rw [if_neg hlow, if_neg hlow]
        rw [hstep]
        simp [isOverpricedItem, isUnknownItem, isFairItem, h, hov, List.filter_cons]

/-- C8: the heuristic-only fallback verdict classifies every line item by its
total (qty × price) against ±20% of the resolved market avgPrice for its
normalized key — overpriced exactly when the total exceeds 1.2 × avgPrice,
questionable exactly when the key has no known market rate, and fair
otherwise (including below 0.8 × avgPrice, noted as below-typical); the path
is a total function that always produces the fallback note. In this pure
model no internal step can throw, so the catch-all error arm of the source is
unreachable. -/
theorem fallback_verdict_classification (rates : List MarketRate)
    (items : List LineItem) :
    (fallbackVerdict rates items).overpriced_notes =
      (items.filter (isOverpricedItem rates)).map (overNoteFor rates) ∧
    (fallbackVerdict rates items).questionable_notes =
      (items.filter (isUnknownItem rates)).map
        (fun it => unknownNote it (itemTotal it)) ∧
    (fallbackVerdict rates items).fair_notes =
      (items.filter (isFairItem rates)).map (fairNoteFor rates) ∧
    (fallbackVerdict rates items).notes =
      ["AI unavailable; used heuristic fallback"] := by
  have h := fallbackLoop_spec rates items ([], [], [])
  simp only [fallbackVerdict, h]
  refine ⟨by simp, by simp, by simp, by simp⟩

end CarApp
